import Mathlib

/-!
Shallow embedding of the indicator / signal / scoring engine of the
taiwan-stock-analysis repository (src/analysis/calculateIndicators.js and
src/analysis/strategies.js), together with proofs of the specification
claims about it.

Numbers are modelled as exact rationals.  The `toFixed` presentation
rounding the source applies at its output boundary is treated as
presentation-only, as §4.2 of the spec prescribes ("rounding must happen
only at presentation, recurrences must carry full precision internally");
the embedded functions return the full-precision values that feed those
roundings.  Absent values (`null` in the source) are modelled as
`Option.none`.
-/

namespace StockAnalysis

/-- One step of the seeded exponential moving average:
`ema = price * k + ema * (1 - k)` (calculateIndicators.js line 23). -/
def emaStep (k ema p : ℚ) : ℚ := p * k + ema * (1 - k)

/-- The successive EMA values produced by the loop of `calculateEMASeries`
(calculateIndicators.js lines 22-25): starting from `ema`, repeatedly apply
`emaStep` to the remaining prices, emitting every intermediate value. -/
def emaScan (k : ℚ) (ema : ℚ) : List ℚ → List ℚ
  | [] => []
  | p :: ps => emaStep k ema p :: emaScan k (emaStep k ema p) ps

/-- `calculateEMASeries(prices, period)` (calculateIndicators.js lines
15-27): empty if fewer than `period` prices are supplied; otherwise
`period - 1` leading `null` entries, then the SMA of the first `period`
prices as seed, then the EMA recurrence over the remaining prices. -/
def calculateEMASeries (prices : List ℚ) (period : ℕ) : List (Option ℚ) :=
  if prices.length < period then []
  else
    let k : ℚ := 2 / (period + 1)
    let ema : ℚ := (prices.take period).sum / period
    List.replicate (period - 1) none ++
      (some ema :: (emaScan k ema (prices.drop period)).map some)

/-- The value `calculateEMASeries prices period` holds at index
`i ≥ period - 1`: the SMA seed of the first `period` prices pushed through
the recurrence once for each of the prices at indices `period .. i`. -/
def emaAt (prices : List ℚ) (period : ℕ) (i : ℕ) : ℚ :=
  ((prices.drop period).take (i + 1 - period)).foldl
    (emaStep (2 / (period + 1))) ((prices.take period).sum / period)

theorem emaScan_length (k e : ℚ) (l : List ℚ) :
    (emaScan k e l).length = l.length := by
  induction l generalizing e with
  | nil => rfl
  | cons p ps ih => simp [emaScan, ih]

theorem emaScan_getElem? (k : ℚ) (l : List ℚ) (e : ℚ) (n : ℕ) (hn : n < l.length) :
    (emaScan k e l)[n]? = some ((l.take (n + 1)).foldl (emaStep k) e) := by
  induction l generalizing e n with
  | nil => simp at hn
  | cons p ps ih =>
    cases n with
    | zero => simp [emaScan]
    | succ n =>
      simp only [List.length_cons, Nat.succ_lt_succ_iff] at hn
      rw [show emaScan k e (p :: ps) = emaStep k e p :: emaScan k (emaStep k e p) ps from rfl,
        List.getElem?_cons_succ, List.take_succ_cons, List.foldl_cons]
      exact ih _ n hn

theorem calculateEMASeries_eq (prices : List ℚ) (period : ℕ)
    (hlen : period ≤ prices.length) :
    calculateEMASeries prices period =
      List.replicate (period - 1) none ++
        (some ((prices.take period).sum / period) ::
          (emaScan (2 / (period + 1)) ((prices.take period).sum / period)
            (prices.drop period)).map some) := by
  unfold calculateEMASeries
  rw [if_neg (by omega)]

theorem calculateEMASeries_length (prices : List ℚ) (period : ℕ)
    (hp : 0 < period) (hlen : period ≤ prices.length) :
    (calculateEMASeries prices period).length = prices.length := by
  rw [calculateEMASeries_eq prices period hlen]
  simp [emaScan_length]
  omega

theorem calculateEMASeries_getElem?_lt (prices : List ℚ) (period i : ℕ)
    (hlen : period ≤ prices.length) (hi : i + 1 < period) :
    (calculateEMASeries prices period)[i]? = some none := by
  rw [calculateEMASeries_eq prices period hlen]
  rw [List.getElem?_append_left (by simp; omega)]
  rw [List.getElem?_replicate]
  rw [if_pos (by omega)]

theorem calculateEMASeries_getElem?_ge (prices : List ℚ) (period i : ℕ)
    (hp : 0 < period) (hlen : period ≤ prices.length)
    (hi1 : period - 1 ≤ i) (hi2 : i < prices.length) :
    (calculateEMASeries prices period)[i]? = some (some (emaAt prices period i)) := by
  rw [calculateEMASeries_eq prices period hlen]
  rw [List.getElem?_append_right (by simp; omega)]
  simp only [List.length_replicate]
  rcases Nat.lt_or_ge i period with hlt | hge
  · have h0 : i - (period - 1) = 0 := by omega
    rw [h0]
    have hieq : i = period - 1 := by omega
    subst hieq
    have h1 : period - 1 + 1 - period = 0 := by omega
    simp [emaAt, h1]
  · have h1 : i - (period - 1) = (i - period) + 1 := by omega
    rw [h1, List.getElem?_cons_succ, List.getElem?_map]
    rw [emaScan_getElem? _ _ _ _ (by simp; omega)]
    simp [emaAt, show i - period + 1 = i + 1 - period by omega]

theorem emaAt_step (prices : List ℚ) (period i : ℕ)
    (hp0 : 0 < period) (hp : period ≤ i) (hi : i < prices.length) :
    emaAt prices period i =
      emaStep (2 / (period + 1)) (emaAt prices period (i - 1)) (prices.getD i 0) := by
  unfold emaAt
  rw [show i + 1 - period = (i - period) + 1 by omega,
    show i - 1 + 1 - period = i - period by omega]
  rw [List.take_succ, List.foldl_append]
  have hg : (prices.drop period)[i - period]? = some (prices.getD i 0) := by
    rw [List.getElem?_drop, show period + (i - period) = i by omega,
      List.getD_eq_getElem?_getD]
    cases hx : prices[i]? with
    | none => exact absurd (List.getElem?_eq_none_iff.mp hx) (by omega)
    | some v => rfl
  rw [hg]
  rfl

/-- C1: for every numeric series with at least `period` elements
(`period > 0`), the exponential series has absent entries at indices
`0 .. period-2`, its element at index `period-1` is the plain arithmetic
mean of the first `period` elements, and every element at index
`i ≥ period` equals `series[i]*k + previousEMA*(1-k)` with
`k = 2/(period+1)`. -/
theorem claim_C1 (prices : List ℚ) (period : ℕ)
    (hp : 0 < period) (hlen : period ≤ prices.length) :
    (calculateEMASeries prices period).length = prices.length ∧
    (∀ i, i + 1 < period → (calculateEMASeries prices period)[i]? = some none) ∧
    (calculateEMASeries prices period)[period - 1]? =
      some (some ((prices.take period).sum / period)) ∧
    (∀ i, period ≤ i → i < prices.length →
      ∃ prev, (calculateEMASeries prices period)[i - 1]? = some (some prev) ∧
        (calculateEMASeries prices period)[i]? =
          some (some (prices.getD i 0 * (2 / (period + 1)) +
            prev * (1 - 2 / (period + 1))))) := by
  refine ⟨calculateEMASeries_length prices period hp hlen, ?_, ?_, ?_⟩
  · intro i hi
    exact calculateEMASeries_getElem?_lt prices period i hlen hi
  · rw [calculateEMASeries_getElem?_ge prices period (period - 1) hp hlen le_rfl (by omega)]
    have h0 : period - 1 + 1 - period = 0 := by omega
    simp [emaAt, h0]
  · intro i hi1 hi2
    refine ⟨emaAt prices period (i - 1), ?_, ?_⟩
    · exact calculateEMASeries_getElem?_ge prices period (i - 1) hp hlen (by omega) (by omega)
    · rw [calculateEMASeries_getElem?_ge prices period i hp hlen (by omega) hi2,
        emaAt_step prices period i hp hi1 hi2]
      rfl

theorem claim_C1_witness :
    (calculateEMASeries [1, 3, 5] 2)[0]? = some none ∧
    (calculateEMASeries [1, 3, 5] 2)[1]? =
      some (some ((([1, 3, 5] : List ℚ).take 2).sum / 2)) := by
  have h := claim_C1 [1, 3, 5] 2 (by norm_num) (by norm_num)
  exact ⟨h.2.1 0 (by norm_num), h.2.2.1⟩

/-! ### RSI (calculateIndicators.js lines 32-59) -/

/-- Day-over-day changes `prices[i] - prices[i-1]` for `i = 1 .. n-1`
(calculateIndicators.js lines 40 and 49). -/
def priceChanges (prices : List ℚ) : List ℚ :=
  List.zipWith (fun a b => a - b) (prices.drop 1) prices

/-- Gain part of a change (line 50); in the seeding loop (lines 41-42) a
change of `0` adds `|0| = 0` to the loss accumulator, which coincides with
summing `gainOf`/`lossOf`. -/
def gainOf (c : ℚ) : ℚ := if c > 0 then c else 0

/-- Loss part of a change (line 51). -/
def lossOf (c : ℚ) : ℚ := if c < 0 then |c| else 0

/-- One Wilder smoothing step `(avg*(period-1) + x)/period`
(calculateIndicators.js lines 52-53, 186 and 243). -/
def wilderStep (period : ℕ) (avg x : ℚ) : ℚ :=
  (avg * ((period : ℚ) - 1) + x) / period

/-- `calculateRSI(prices, period)` (calculateIndicators.js lines 32-59):
`null` below `period + 1` prices; otherwise plain means of the gains and
losses over the first `period` changes, Wilder smoothing over the rest,
and `100` when the final average loss is `0`,
`100 - 100/(1 + avgGain/avgLoss)` otherwise. -/
def calculateRSI (prices : List ℚ) (period : ℕ) : Option ℚ :=
  if prices.length < period + 1 then none
  else
    let chs := priceChanges prices
    let avgGain0 := ((chs.take period).map gainOf).sum / period
    let avgLoss0 := ((chs.take period).map lossOf).sum / period
    let avgGain := (chs.drop period).foldl (fun g c => wilderStep period g (gainOf c)) avgGain0
    let avgLoss := (chs.drop period).foldl (fun l c => wilderStep period l (lossOf c)) avgLoss0
    if avgLoss = 0 then some 100
    else some (100 - 100 / (1 + avgGain / avgLoss))

/-- The price delta `prices[i+1] - prices[i]`, indexed view used to state
the RSI claim. -/
def deltaAt (prices : List ℚ) (i : ℕ) : ℚ :=
  prices.getD (i + 1) 0 - prices.getD i 0

/-- Plain mean of the gains over the first `period` deltas. -/
def initialAvgGain (prices : List ℚ) (period : ℕ) : ℚ :=
  (((List.range period).map fun i => gainOf (deltaAt prices i)).sum) / period

/-- Plain mean of the losses over the first `period` deltas. -/
def initialAvgLoss (prices : List ℚ) (period : ℕ) : ℚ :=
  (((List.range period).map fun i => lossOf (deltaAt prices i)).sum) / period

/-- Wilder-smoothed average gain after consuming every delta. -/
def finalAvgGain (prices : List ℚ) (period : ℕ) : ℚ :=
  (List.range' period (prices.length - 1 - period)).foldl
    (fun a i => wilderStep period a (gainOf (deltaAt prices i)))
    (initialAvgGain prices period)

/-- Wilder-smoothed average loss after consuming every delta. -/
def finalAvgLoss (prices : List ℚ) (period : ℕ) : ℚ :=
  (List.range' period (prices.length - 1 - period)).foldl
    (fun a i => wilderStep period a (lossOf (deltaAt prices i)))
    (initialAvgLoss prices period)

theorem foldl_congr_mem {α β : Type} (l : List α) (F G : β → α → β) (b : β)
    (h : ∀ acc x, x ∈ l → F acc x = G acc x) : l.foldl F b = l.foldl G b := by
  induction l generalizing b with
  | nil => rfl
  | cons a t ih =>
    simp only [List.foldl_cons]
    rw [h b a (by simp)]
    exact ih _ fun acc x hx => h acc x (by simp [hx])

theorem foldl_eq_range_getD {α β : Type} (l : List α) (d : α) (g : β → α → β) (b : β) :
    l.foldl g b = (List.range l.length).foldl (fun acc i => g acc (l.getD i d)) b := by
  induction l generalizing b with
  | nil => rfl
  | cons a t ih =>
    simp only [List.foldl_cons, List.length_cons, List.range_succ_eq_map,
      List.foldl_map]
    rw [show (a :: t).getD 0 d = a from rfl]
    rw [ih (g b a)]
    rfl

theorem foldl_drop_eq_range' {α β : Type} (l : List α) (d : α) (m : ℕ)
    (g : β → α → β) (b : β) :
    (l.drop m).foldl g b =
      (List.range' m (l.length - m)).foldl (fun acc i => g acc (l.getD i d)) b := by
  rw [foldl_eq_range_getD (l.drop m) d g b, List.length_drop,
    List.range'_eq_map_range, List.foldl_map]
  refine foldl_congr_mem _ _ _ _ fun acc i _ => ?_
  rw [List.getD_eq_getElem?_getD, List.getD_eq_getElem?_getD, List.getElem?_drop]

theorem take_map_eq_range_getD {α β : Type} (l : List α) (d : α) (f : α → β) :
    ∀ m, m ≤ l.length →
      (l.take m).map f = (List.range m).map fun i => f (l.getD i d) := by
  induction l with
  | nil =>
    intro m hm
    have hm0 : m = 0 := by simpa using hm
    subst hm0; rfl
  | cons a t ih =>
    intro m hm
    cases m with
    | zero => rfl
    | succ m' =>
      simp only [List.take_succ_cons, List.map_cons, List.range_succ_eq_map,
        List.map_map]
      rw [ih m' (by simpa using hm)]
      rfl

theorem priceChanges_length (prices : List ℚ) :
    (priceChanges prices).length = prices.length - 1 := by
  simp [priceChanges]

theorem priceChanges_getD (prices : List ℚ) (i : ℕ) (hi : i < prices.length - 1) :
    (priceChanges prices).getD i 0 = deltaAt prices i := by
  have h2 : i + 1 < prices.length := by omega
  have h3 : i < prices.length := by omega
  rw [List.getD_eq_getElem?_getD]
  unfold priceChanges
  rw [List.getElem?_zipWith, List.getElem?_drop, Nat.add_comm 1 i]
  rw [List.getElem?_eq_getElem h2, List.getElem?_eq_getElem h3]
  unfold deltaAt
  rw [List.getD_eq_getElem _ _ h2, List.getD_eq_getElem _ _ h3]
  rfl

theorem rsi_fold_eq (prices : List ℚ) (p : ℕ) (f : ℚ → ℚ) (h : p ≤ prices.length - 1) :
    ((priceChanges prices).drop p).foldl (fun g c => wilderStep p g (f c))
      ((((priceChanges prices).take p).map f).sum / (p : ℚ)) =
    (List.range' p (prices.length - 1 - p)).foldl
      (fun a i => wilderStep p a (f (deltaAt prices i)))
      ((((List.range p).map fun i => f (deltaAt prices i)).sum) / (p : ℚ)) := by
  rw [take_map_eq_range_getD (priceChanges prices) 0 f p (by rw [priceChanges_length]; omega)]
  rw [foldl_drop_eq_range' (priceChanges prices) 0 p _ _, priceChanges_length]
  have hseed : ((List.range p).map fun i => f ((priceChanges prices).getD i 0)).sum
      = ((List.range p).map fun i => f (deltaAt prices i)).sum := by
    congr 1
    refine List.map_congr_left fun i hi => ?_
    rw [priceChanges_getD prices i (by simp only [List.mem_range] at hi; omega)]
  rw [hseed]
  refine foldl_congr_mem _ _ _ _ fun acc i hi => ?_
  rw [List.mem_range'_1] at hi
  rw [priceChanges_getD prices i (by omega)]

theorem priceChanges_replicate (c : ℚ) (n : ℕ) :
    priceChanges (List.replicate n c) = List.replicate (n - 1) (0 : ℚ) := by
  unfold priceChanges
  rw [List.drop_replicate, List.zipWith_replicate, sub_self]
  congr 1
  omega

theorem foldl_wilder_lossOf_zero (p m : ℕ) :
    (List.replicate m (0 : ℚ)).foldl (fun l c => wilderStep p l (lossOf c)) 0 = 0 := by
  induction m with
  | zero => rfl
  | succ m' ih =>
    rw [List.replicate_succ, List.foldl_cons]
    have h0 : wilderStep p 0 (lossOf 0) = 0 := by
      simp [wilderStep, lossOf]
    rw [h0, ih]

/-- C2: for every close series of length at least 15, RSI(14) is the plain
means of gains/losses over the first 14 deltas, Wilder-smoothed
`(avg*13 + new)/14` over every later delta, returning `100` when the final
average loss is `0` and `100 - 100/(1 + avgGain/avgLoss)` otherwise; and
for every constant positive close series of length at least 60 the RSI
equals 100. -/
theorem claim_C2 :
    (∀ prices : List ℚ, 15 ≤ prices.length →
      calculateRSI prices 14 =
        if finalAvgLoss prices 14 = 0 then some 100
        else some (100 - 100 / (1 + finalAvgGain prices 14 / finalAvgLoss prices 14))) ∧
    (∀ (n : ℕ) (c : ℚ), 60 ≤ n → 0 < c →
      calculateRSI (List.replicate n c) 14 = some 100) := by
  constructor
  · intro prices h
    have hneg : ¬ prices.length < 14 + 1 := by omega
    simp only [calculateRSI, hneg, if_false]
    rw [rsi_fold_eq prices 14 gainOf (by omega), rsi_fold_eq prices 14 lossOf (by omega)]
    rfl
  · intro n c hn _hc
    have hneg : ¬ (List.replicate n c).length < 14 + 1 := by
      simp only [List.length_replicate]; omega
    simp only [calculateRSI, hneg, if_false]
    rw [priceChanges_replicate, List.take_replicate, List.map_replicate,
      List.drop_replicate]
    have hl0 : lossOf 0 = 0 := by simp [lossOf]
    rw [hl0, List.sum_replicate, smul_zero, zero_div, foldl_wilder_lossOf_zero]
    rw [if_pos rfl]

theorem claim_C2_witness :
    calculateRSI (List.replicate 15 (1 : ℚ)) 14 =
      (if finalAvgLoss (List.replicate 15 (1 : ℚ)) 14 = 0 then some 100
       else some (100 - 100 / (1 + finalAvgGain (List.replicate 15 (1 : ℚ)) 14 /
         finalAvgLoss (List.replicate 15 (1 : ℚ)) 14))) ∧
    calculateRSI (List.replicate 60 (2 : ℚ)) 14 = some 100 := by
  exact ⟨claim_C2.1 _ (by simp), claim_C2.2 60 2 (by norm_num) (by norm_num)⟩

/-! ### OBV (calculateIndicators.js lines 276-288) -/

/-- `calculateOBV(closes, volumes)` (calculateIndicators.js lines 276-288):
`null` below 2 closes; otherwise the loop over `i = 1 ..` adds
`volumes[i]` when `closes[i] > closes[i-1]`, subtracts it when
`closes[i] < closes[i-1]`, and leaves the accumulator unchanged otherwise,
starting from 0. -/
def calculateOBV (closes volumes : List ℚ) : Option ℚ :=
  if closes.length < 2 then none
  else
    some ((List.zip (List.zip (closes.drop 1) closes) (volumes.drop 1)).foldl
      (fun obv x =>
        if x.1.1 > x.1.2 then obv + x.2
        else if x.1.1 < x.1.2 then obv - x.2
        else obv) 0)

/-- One day's OBV contribution as the claim describes it. -/
def obvDelta (prev cur v : ℚ) : ℚ :=
  if cur > prev then v else if cur < prev then -v else 0

/-- Cumulative sum of OBV contributions over (current, previous, volume)
triples. -/
def obvSum : List ((ℚ × ℚ) × ℚ) → ℚ
  | [] => 0
  | x :: xs => obvDelta x.1.2 x.1.1 x.2 + obvSum xs

/-- Claim-side OBV: the cumulative sum starting at 0 that adds the day's
volume on a strictly higher close, subtracts it on a strictly lower close
and is unchanged on an equal close. -/
def obvFrom : ℚ → List ℚ → List ℚ → ℚ
  | _, [], _ => 0
  | _, _ :: _, [] => 0
  | prev, c :: cs, v :: vs => obvDelta prev c v + obvFrom c cs vs

/-- Claim-side OBV of a close/volume series. -/
def obvSpec (closes volumes : List ℚ) : ℚ :=
  match closes with
  | [] => 0
  | c :: cs => obvFrom c cs (volumes.drop 1)

theorem obvFoldl_eq (l : List ((ℚ × ℚ) × ℚ)) : ∀ b : ℚ,
    l.foldl (fun obv x => if x.1.1 > x.1.2 then obv + x.2
      else if x.1.1 < x.1.2 then obv - x.2 else obv) b = b + obvSum l := by
  induction l with
  | nil => intro b; simp [obvSum]
  | cons x xs ih =>
    intro b
    rw [List.foldl_cons, ih, obvSum]
    have hx : (if x.1.1 > x.1.2 then b + x.2 else if x.1.1 < x.1.2 then b - x.2 else b)
        = b + obvDelta x.1.2 x.1.1 x.2 := by
      unfold obvDelta
      split_ifs <;> ring
    rw [hx]
    ring

theorem obvFrom_eq_obvSum : ∀ (cs : List ℚ) (prev : ℚ) (vs : List ℚ),
    obvFrom prev cs vs = obvSum (List.zip (List.zip cs (prev :: cs)) vs) := by
  intro cs
  induction cs with
  | nil => intro prev vs; simp [obvFrom, obvSum]
  | cons c cs' ih =>
    intro prev vs
    cases vs with
    | nil => simp [obvFrom, obvSum]
    | cons v vs' =>
      rw [show List.zip (c :: cs') (prev :: c :: cs') = (c, prev) :: List.zip cs' (c :: cs')
          from rfl]
      rw [show List.zip ((c, prev) :: List.zip cs' (c :: cs')) (v :: vs')
          = ((c, prev), v) :: List.zip (List.zip cs' (c :: cs')) vs' from rfl]
      rw [obvFrom, obvSum, ih c vs']

/-- C10: OBV is absent (not 0) below 2 closes; for length at least 2 it is
the cumulative sum starting at 0 that adds the day's volume on a strictly
higher close, subtracts it on a strictly lower close, and is unchanged on
an equal close. -/
theorem claim_C10 (closes volumes : List ℚ) :
    (closes.length < 2 → calculateOBV closes volumes = none) ∧
    (2 ≤ closes.length → calculateOBV closes volumes = some (obvSpec closes volumes)) := by
  constructor
  · intro h
    unfold calculateOBV
    rw [if_pos h]
  · intro h
    unfold calculateOBV
    rw [if_neg (by omega)]
    cases closes with
    | nil => simp at h
    | cons c cs =>
      congr 1
      rw [show (c :: cs).drop 1 = cs from rfl, obvFoldl_eq]
      rw [show obvSpec (c :: cs) volumes = obvFrom c cs (volumes.drop 1) from rfl]
      rw [obvFrom_eq_obvSum]
      ring

theorem claim_C10_witness :
    calculateOBV [5] [7] = none ∧
    calculateOBV [1, 2, 1] [10, 20, 30] = some (obvSpec [1, 2, 1] [10, 20, 30]) := by
  exact ⟨(claim_C10 [5] [7]).1 (by norm_num),
    (claim_C10 [1, 2, 1] [10, 20, 30]).2 (by norm_num)⟩

/-! ### Stochastic K/D (calculateIndicators.js lines 99-125) -/

/-- `Math.max(...)` over a window; the empty case (only reachable for
out-of-contract inputs with mismatched array lengths) is mapped to 0. -/
def listMax : List ℚ → ℚ
  | [] => 0
  | x :: xs => xs.foldl max x

/-- `Math.min(...)` over a window. -/
def listMin : List ℚ → ℚ
  | [] => 0
  | x :: xs => xs.foldl min x

theorem foldl_max_le (l : List ℚ) : ∀ a : ℚ,
    a ≤ l.foldl max a ∧ ∀ x ∈ l, x ≤ l.foldl max a := by
  induction l with
  | nil => intro a; exact ⟨le_refl a, by simp⟩
  | cons b t ih =>
    intro a
    rw [List.foldl_cons]
    refine ⟨le_trans (le_max_left a b) (ih (max a b)).1, fun x hx => ?_⟩
    rcases List.mem_cons.mp hx with rfl | hx
    · exact le_trans (le_max_right a x) (ih (max a x)).1
    · exact (ih (max a b)).2 x hx

theorem foldl_min_le (l : List ℚ) : ∀ a : ℚ,
    l.foldl min a ≤ a ∧ ∀ x ∈ l, l.foldl min a ≤ x := by
  induction l with
  | nil => intro a; exact ⟨le_refl a, by simp⟩
  | cons b t ih =>
    intro a
    rw [List.foldl_cons]
    refine ⟨le_trans (ih (min a b)).1 (min_le_left a b), fun x hx => ?_⟩
    rcases List.mem_cons.mp hx with rfl | hx
    · exact le_trans (ih (min a x)).1 (min_le_right a x)
    · exact (ih (min a b)).2 x hx

theorem le_listMax (l : List ℚ) (x : ℚ) (hx : x ∈ l) : x ≤ listMax l := by
  cases l with
  | nil => simp at hx
  | cons b t =>
    rcases List.mem_cons.mp hx with rfl | hx
    · exact (foldl_max_le t x).1
    · exact (foldl_max_le t b).2 x hx

theorem listMin_le (l : List ℚ) (x : ℚ) (hx : x ∈ l) : listMin l ≤ x := by
  cases l with
  | nil => simp at hx
  | cons b t =>
    rcases List.mem_cons.mp hx with rfl | hx
    · exact (foldl_min_le t x).1
    · exact (foldl_min_le t b).2 x hx

/-- One K/D update (calculateIndicators.js lines 117-118):
`K = 2/3*prevK + 1/3*RSV`, `D = 2/3*prevD + 1/3*K`. -/
def kdStep (rsv : ℚ) (kd : ℚ × ℚ) : ℚ × ℚ :=
  ((2 / 3) * kd.1 + (1 / 3) * rsv,
   (2 / 3) * kd.2 + (1 / 3) * ((2 / 3) * kd.1 + (1 / 3) * rsv))

/-- RSV of the window ending at index `i` (calculateIndicators.js lines
107-114): `(close - lowest)/(highest - lowest) * 100`, or 50 when the
window's highest high equals its lowest low. -/
def rsvAt (highs lows closes : List ℚ) (period i : ℕ) : ℚ :=
  let highest := listMax ((highs.drop (i + 1 - period)).take period)
  let lowest := listMin ((lows.drop (i + 1 - period)).take period)
  if highest = lowest then 50
  else ((closes.getD i 0 - lowest) / (highest - lowest)) * 100

/-- `calculateKD(highs, lows, closes, period)` (calculateIndicators.js
lines 99-125): `null` below `period` closes; otherwise the K/D recurrence
seeded at (50, 50), driven by the RSV of each window ending at
`i = period-1 .. closes.length-1`. -/
def calculateKD (highs lows closes : List ℚ) (period : ℕ) : Option (ℚ × ℚ) :=
  if closes.length < period then none
  else
    some ((List.range' (period - 1) (closes.length - (period - 1))).foldl
      (fun kd i => kdStep (rsvAt highs lows closes period i) kd) (50, 50))

theorem kdStep_bounds (rsv : ℚ) (kd : ℚ × ℚ)
    (hr : 0 ≤ rsv ∧ rsv ≤ 100)
    (h1 : 0 ≤ kd.1 ∧ kd.1 ≤ 100) (h2 : 0 ≤ kd.2 ∧ kd.2 ≤ 100) :
    (0 ≤ (kdStep rsv kd).1 ∧ (kdStep rsv kd).1 ≤ 100) ∧
    (0 ≤ (kdStep rsv kd).2 ∧ (kdStep rsv kd).2 ≤ 100) := by
  unfold kdStep
  obtain ⟨hr0, hr1⟩ := hr
  obtain ⟨h10, h11⟩ := h1
  obtain ⟨h20, h21⟩ := h2
  constructor <;> constructor <;> simp only [] <;> linarith

theorem kd_fold_bounds (rs : ℕ → ℚ) (l : List ℕ)
    (h : ∀ i ∈ l, 0 ≤ rs i ∧ rs i ≤ 100) :
    ∀ kd : ℚ × ℚ, (0 ≤ kd.1 ∧ kd.1 ≤ 100) → (0 ≤ kd.2 ∧ kd.2 ≤ 100) →
      (0 ≤ (l.foldl (fun kd i => kdStep (rs i) kd) kd).1 ∧
        (l.foldl (fun kd i => kdStep (rs i) kd) kd).1 ≤ 100) ∧
      (0 ≤ (l.foldl (fun kd i => kdStep (rs i) kd) kd).2 ∧
        (l.foldl (fun kd i => kdStep (rs i) kd) kd).2 ≤ 100) := by
  induction l with
  | nil => intro kd h1 h2; exact ⟨h1, h2⟩
  | cons a t ih =>
    intro kd h1 h2
    rw [List.foldl_cons]
    have hstep := kdStep_bounds (rs a) kd (h a (by simp)) h1 h2
    exact ih (fun i hi => h i (by simp [hi])) _ hstep.1 hstep.2

theorem rsvAt_bounds (highs lows closes : List ℚ) (period i : ℕ)
    (hp : 0 < period) (hi1 : period - 1 ≤ i) (hi2 : i < closes.length)
    (hH : closes.length ≤ highs.length) (hL : closes.length ≤ lows.length)
    (hlc : lows.getD i 0 ≤ closes.getD i 0 ∧ closes.getD i 0 ≤ highs.getD i 0) :
    0 ≤ rsvAt highs lows closes period i ∧ rsvAt highs lows closes period i ≤ 100 := by
  have hil : i < lows.length := by omega
  have hih : i < highs.length := by omega
  have hmemL : lows.getD i 0 ∈ (lows.drop (i + 1 - period)).take period := by
    refine List.getElem?_mem (n := period - 1) ?_
    rw [List.getElem?_take, if_pos (by omega), List.getElem?_drop,
      show i + 1 - period + (period - 1) = i by omega,
      List.getElem?_eq_getElem hil, List.getD_eq_getElem _ _ hil]
  have hmemH : highs.getD i 0 ∈ (highs.drop (i + 1 - period)).take period := by
    refine List.getElem?_mem (n := period - 1) ?_
    rw [List.getElem?_take, if_pos (by omega), List.getElem?_drop,
      show i + 1 - period + (period - 1) = i by omega,
      List.getElem?_eq_getElem hih, List.getD_eq_getElem _ _ hih]
  have h1 : listMin ((lows.drop (i + 1 - period)).take period) ≤ lows.getD i 0 :=
    listMin_le _ _ hmemL
  have h2 : highs.getD i 0 ≤ listMax ((highs.drop (i + 1 - period)).take period) :=
    le_listMax _ _ hmemH
  obtain ⟨hlo, hhi⟩ := hlc
  unfold rsvAt
  simp only []
  split_ifs with heq
  · norm_num
  · have hLH : listMin ((lows.drop (i + 1 - period)).take period) <
        listMax ((highs.drop (i + 1 - period)).take period) := by
      refine lt_of_le_of_ne (by linarith) fun h => heq h.symm
    constructor
    · have := div_nonneg (show (0:ℚ) ≤ closes.getD i 0 -
          listMin ((lows.drop (i + 1 - period)).take period) by linarith)
        (show (0:ℚ) ≤ listMax ((highs.drop (i + 1 - period)).take period) -
          listMin ((lows.drop (i + 1 - period)).take period) by linarith)
      linarith
    · have hq : (closes.getD i 0 - listMin ((lows.drop (i + 1 - period)).take period)) /
          (listMax ((highs.drop (i + 1 - period)).take period) -
            listMin ((lows.drop (i + 1 - period)).take period)) ≤ 1 := by
        rw [div_le_one (by linarith)]
        linarith
      linarith

/-- C4 (counterexample to the claim as stated): with arbitrary inputs the
close may lie far outside the high/low window, so RSV is unbounded and K/D
escape [0,100]: nine bars with highs 1, lows 0 and a final close of 1000
give K = 100100/3 > 100 and D = 100400/9 > 100. -/
theorem claim_C4_counterexample :
    calculateKD [1, 1, 1, 1, 1, 1, 1, 1, 1] [0, 0, 0, 0, 0, 0, 0, 0, 0]
        [0, 0, 0, 0, 0, 0, 0, 0, 1000] 9 = some (100100 / 3, 100400 / 9) ∧
      ¬((100100 : ℚ) / 3 ≤ 100) := by
  constructor
  · have hr : List.range' (9 - 1)
        (([0, 0, 0, 0, 0, 0, 0, 0, (1000 : ℚ)]).length - (9 - 1)) = [8] := rfl
    unfold calculateKD
    rw [if_neg (by norm_num), hr, List.foldl_cons, List.foldl_nil]
    have hrsv : rsvAt [1, 1, 1, 1, 1, 1, 1, 1, 1] [0, 0, 0, 0, 0, 0, 0, 0, 0]
        [0, 0, 0, 0, 0, 0, 0, 0, 1000] 9 8 = 100000 := by
      unfold rsvAt
      norm_num [listMax, listMin]
    rw [hrsv]
    unfold kdStep
    norm_num
  · norm_num

/-- C4 (amended): for every input of highs, lows and closes of length at
least 9 in which each close lies between that bar's low and high (the OHLC
contract of §3), the stochastic K and D returned by the seeded K/D
recurrence are both within [0,100]. -/
theorem claim_C4 (highs lows closes : List ℚ)
    (hlen : 9 ≤ closes.length)
    (hH : closes.length ≤ highs.length) (hL : closes.length ≤ lows.length)
    (hlc : ∀ i, i < closes.length →
      lows.getD i 0 ≤ closes.getD i 0 ∧ closes.getD i 0 ≤ highs.getD i 0) :
    ∃ k d, calculateKD highs lows closes 9 = some (k, d) ∧
      0 ≤ k ∧ k ≤ 100 ∧ 0 ≤ d ∧ d ≤ 100 := by
  unfold calculateKD
  rw [if_neg (by omega)]
  refine ⟨_, _, rfl, ?_⟩
  have hfold := kd_fold_bounds (rsvAt highs lows closes 9)
    (List.range' (9 - 1) (closes.length - (9 - 1)))
    (fun i hi => by
      rw [List.mem_range'_1] at hi
      exact rsvAt_bounds highs lows closes 9 i (by norm_num) (by omega) (by omega)
        hH hL (hlc i (by omega)))
    (50, 50) (by norm_num) (by norm_num)
  exact ⟨hfold.1.1, hfold.1.2, hfold.2.1, hfold.2.2⟩

theorem claim_C4_witness :
    ∃ k d, calculateKD [2, 2, 2, 2, 2, 2, 2, 2, 2] [0, 0, 0, 0, 0, 0, 0, 0, 0]
        [1, 1, 1, 1, 1, 1, 1, 1, 1] 9 = some (k, d) ∧
      0 ≤ k ∧ k ≤ 100 ∧ 0 ≤ d ∧ d ≤ 100 := by
  refine claim_C4 _ _ _ (by norm_num) (by norm_num) (by norm_num) ?_
  intro i hi
  simp only [List.length_cons, List.length_nil] at hi
  interval_cases i <;> norm_num

/-! ### ATR and DMI/ADX (calculateIndicators.js lines 167-253) -/

def zipWith3 {α β γ δ : Type} (f : α → β → γ → δ) : List α → List β → List γ → List δ
  | a :: as, b :: bs, c :: cs => f a b c :: zipWith3 f as bs cs
  | _, _, _ => []

def zipWith4 {α β γ δ ε : Type} (f : α → β → γ → δ → ε) :
    List α → List β → List γ → List δ → List ε
  | a :: as, b :: bs, c :: cs, d :: ds => f a b c d :: zipWith4 f as bs cs ds
  | _, _, _, _ => []

/-- True range of one bar (calculateIndicators.js lines 173-177 and
203-207): `max(high - low, |high - prevClose|, |low - prevClose|)`. -/
def trOf (h l pc : ℚ) : ℚ := max (h - l) (max |h - pc| |l - pc|)

/-- The true-range series for bars `i = 1 .. n-1`. -/
def trSeriesOf (highs lows closes : List ℚ) : List ℚ :=
  zipWith3 trOf (highs.drop 1) (lows.drop 1) closes

/-- The +DM series (calculateIndicators.js lines 210-213): `upMove` when
it exceeds the down move and is positive, else 0. -/
def plusDMSeries (highs lows : List ℚ) : List ℚ :=
  zipWith4 (fun h hp l lp => if h - hp > lp - l ∧ h - hp > 0 then h - hp else 0)
    (highs.drop 1) highs (lows.drop 1) lows

/-- The −DM series (calculateIndicators.js line 214). -/
def minusDMSeries (highs lows : List ℚ) : List ℚ :=
  zipWith4 (fun h hp l lp => if lp - l > h - hp ∧ lp - l > 0 then lp - l else 0)
    (highs.drop 1) highs (lows.drop 1) lows

/-- Emit every intermediate value of repeatedly applying `step`. -/
def scanSteps (step : ℚ → ℚ → ℚ) (s : ℚ) : List ℚ → List ℚ
  | [] => []
  | x :: xs => step s x :: scanSteps step (step s x) xs

/-- One step of the sum-form smoothing used inside `calculateDMI`
(calculateIndicators.js lines 227-229): `s - s/period + x`. -/
def dmiSmoothStep (period : ℕ) (s x : ℚ) : ℚ := s - s / period + x

/-- The successive smoothed values `calculateDMI` computes for one series:
the seed is the SUM of the first `period` values (lines 220-222), each
later value is `prev - prev/period + new`. -/
def dmiSmoothSeq (series : List ℚ) (period : ℕ) : List ℚ :=
  (series.take period).sum ::
    scanSteps (dmiSmoothStep period) ((series.take period).sum) (series.drop period)

/-- The §4.1 `wilderSmooth` sequence: the seed is the simple AVERAGE of
the first `period` values, each later value is
`(prev*(period-1) + new)/period`. -/
def wilderSmoothSeq (series : List ℚ) (period : ℕ) : List ℚ :=
  ((series.take period).sum / period) ::
    scanSteps (wilderStep period) ((series.take period).sum / period) (series.drop period)

/-- The (+DI, −DI) pair of one bar given the three smoothed values
(calculateIndicators.js lines 231-232). -/
def diOf (str sp sm : ℚ) : ℚ × ℚ :=
  (if str > 0 then sp / str * 100 else 0, if str > 0 then sm / str * 100 else 0)

/-- The (+DI, −DI) pairs for every bar after the seed
(calculateIndicators.js lines 226-236). -/
def diPairs (highs lows closes : List ℚ) (period : ℕ) : List (ℚ × ℚ) :=
  zipWith3 diOf
    ((dmiSmoothSeq (trSeriesOf highs lows closes) period).drop 1)
    ((dmiSmoothSeq (plusDMSeries highs lows) period).drop 1)
    ((dmiSmoothSeq (minusDMSeries highs lows) period).drop 1)

/-- DX of one bar (calculateIndicators.js lines 233-234). -/
def dxOf (pdi mdi : ℚ) : ℚ :=
  if pdi + mdi > 0 then |pdi - mdi| / (pdi + mdi) * 100 else 0

/-- `calculateDMI(highs, lows, closes, period)` (calculateIndicators.js
lines 195-253): guards for short input, then ADX = average-form Wilder
smoothing of the DX series (seeded by the simple mean of the first
`period` DX values, lines 241-244) and the last bar's +DI/−DI. -/
def calculateDMI (highs lows closes : List ℚ) (period : ℕ) :
    Option (ℚ × ℚ × ℚ) :=
  if closes.length < period + 1 then none
  else if (trSeriesOf highs lows closes).length < period then none
  else
    let pairs := diPairs highs lows closes period
    let dxs := pairs.map fun p => dxOf p.1 p.2
    if dxs.length < period then none
    else
      let adx := (dxs.drop period).foldl (wilderStep period) ((dxs.take period).sum / period)
      match pairs.getLast? with
      | some last => some (adx, last.1, last.2)
      | none => none

/-- `calculateATR(highs, lows, closes, period)` (calculateIndicators.js
lines 167-190): `null` below `period + 1` closes, else the §4.1
average-form Wilder smoothing of the true ranges (seed = simple mean of
the first `period`, lines 181-187). -/
def calculateATR (highs lows closes : List ℚ) (period : ℕ) : Option ℚ :=
  if closes.length < period + 1 then none
  else
    let trs := trSeriesOf highs lows closes
    some ((trs.drop period).foldl (wilderStep period) ((trs.take period).sum / period))

theorem scanSteps_dmi_eq_scaled (p : ℕ) (hp : 0 < p) (l : List ℚ) : ∀ s : ℚ,
    scanSteps (dmiSmoothStep p) ((p : ℚ) * s) l =
      (scanSteps (wilderStep p) s l).map (fun x => (p : ℚ) * x) := by
  induction l with
  | nil => intro s; rfl
  | cons x xs ih =>
    intro s
    have hpq : (p : ℚ) ≠ 0 := by
      simpa using Nat.cast_ne_zero.mpr (Nat.pos_iff_ne_zero.mp hp)
    have hstep : dmiSmoothStep p ((p : ℚ) * s) x = (p : ℚ) * wilderStep p s x := by
      unfold dmiSmoothStep wilderStep
      field_simp
      ring
    rw [show scanSteps (dmiSmoothStep p) ((p : ℚ) * s) (x :: xs)
        = dmiSmoothStep p ((p : ℚ) * s) x ::
          scanSteps (dmiSmoothStep p) (dmiSmoothStep p ((p : ℚ) * s) x) xs from rfl]
    rw [show scanSteps (wilderStep p) s (x :: xs)
        = wilderStep p s x :: scanSteps (wilderStep p) (wilderStep p s x) xs from rfl]
    rw [List.map_cons, hstep, ih (wilderStep p s x)]

theorem dmiSmoothSeq_eq_scaled (series : List ℚ) (p : ℕ) (hp : 0 < p) :
    dmiSmoothSeq series p =
      (wilderSmoothSeq series p).map (fun x => (p : ℚ) * x) := by
  have hpq : (p : ℚ) ≠ 0 := by
    simpa using Nat.cast_ne_zero.mpr (Nat.pos_iff_ne_zero.mp hp)
  have hseed : (series.take p).sum = (p : ℚ) * ((series.take p).sum / p) := by
    field_simp
  unfold dmiSmoothSeq wilderSmoothSeq
  rw [List.map_cons]
  rw [show ((List.take p series).sum ::
      scanSteps (dmiSmoothStep p) (List.take p series).sum (List.drop p series))
    = ((p : ℚ) * ((List.take p series).sum / p) ::
      scanSteps (dmiSmoothStep p) ((p : ℚ) * ((List.take p series).sum / p))
        (List.drop p series)) by rw [← hseed]]
  rw [scanSteps_dmi_eq_scaled p hp]

theorem zipWith3_map {α β : Type} (f : α → α → α → β) (g : α → α)
    (as bs cs : List α) :
    zipWith3 f (as.map g) (bs.map g) (cs.map g) =
      zipWith3 (fun a b c => f (g a) (g b) (g c)) as bs cs := by
  induction as generalizing bs cs with
  | nil => rfl
  | cons a as' ih =>
    cases bs with
    | nil => rfl
    | cons b bs' =>
      cases cs with
      | nil => rfl
      | cons c cs' => simp [zipWith3, ih]

theorem zipWith3_congr {α β : Type} (f g : α → α → α → β)
    (h : ∀ a b c, f a b c = g a b c) (as bs cs : List α) :
    zipWith3 f as bs cs = zipWith3 g as bs cs := by
  induction as generalizing bs cs with
  | nil => rfl
  | cons a as' ih =>
    cases bs with
    | nil => rfl
    | cons b bs' =>
      cases cs with
      | nil => rfl
      | cons c cs' => simp [zipWith3, h, ih]

theorem scanSteps_getLast (step : ℚ → ℚ → ℚ) (l : List ℚ) : ∀ s : ℚ,
    (s :: scanSteps step s l).getLast (by simp) = l.foldl step s := by
  induction l with
  | nil => intro s; rfl
  | cons x xs ih =>
    intro s
    rw [List.foldl_cons, ← ih (step s x)]
    rfl

theorem diOf_scaled (p : ℕ) (hp : 0 < p) (a b c : ℚ) :
    diOf ((p : ℚ) * a) ((p : ℚ) * b) ((p : ℚ) * c) = diOf a b c := by
  have hp' : (0 : ℚ) < p := by exact_mod_cast hp
  have hpne : (p : ℚ) ≠ 0 := ne_of_gt hp'
  have hcond : ((p : ℚ) * a > 0) ↔ (a > 0) := by
    constructor
    · intro h; nlinarith
    · intro h; positivity
  unfold diOf
  by_cases h : a > 0
  · rw [if_pos (hcond.mpr h), if_pos (hcond.mpr h), if_pos h, if_pos h,
      mul_div_mul_left _ _ hpne, mul_div_mul_left _ _ hpne]
  · rw [if_neg (fun hcc => h (hcond.mp hcc)), if_neg (fun hcc => h (hcond.mp hcc)),
      if_neg h, if_neg h]

/-- C3 (counterexample to the claim as stated): inside `calculateDMI` the
TR series is smoothed with a SUM-seeded recurrence (`seed = sum of first
14`, `next = prev - prev/14 + new`), not the §4.1 `wilderSmooth` average
recurrence: on 14 bars of true range 2 the code's first smoothed value is
28 while `wilderSmooth` gives 2. -/
theorem claim_C3_counterexample :
    dmiSmoothSeq (trSeriesOf
        ([2, 2, 2, 2, 2, 2, 2, 2, 2, 2, 2, 2, 2, 2, 2] : List ℚ)
        [0, 0, 0, 0, 0, 0, 0, 0, 0, 0, 0, 0, 0, 0, 0]
        [1, 1, 1, 1, 1, 1, 1, 1, 1, 1, 1, 1, 1, 1, 1]) 14 ≠
      wilderSmoothSeq (trSeriesOf
        ([2, 2, 2, 2, 2, 2, 2, 2, 2, 2, 2, 2, 2, 2, 2] : List ℚ)
        [0, 0, 0, 0, 0, 0, 0, 0, 0, 0, 0, 0, 0, 0, 0]
        [1, 1, 1, 1, 1, 1, 1, 1, 1, 1, 1, 1, 1, 1, 1]) 14 := by
  have htr : trSeriesOf
      ([2, 2, 2, 2, 2, 2, 2, 2, 2, 2, 2, 2, 2, 2, 2] : List ℚ)
      [0, 0, 0, 0, 0, 0, 0, 0, 0, 0, 0, 0, 0, 0, 0]
      [1, 1, 1, 1, 1, 1, 1, 1, 1, 1, 1, 1, 1, 1, 1]
      = [2, 2, 2, 2, 2, 2, 2, 2, 2, 2, 2, 2, 2, 2] := by
    norm_num [trSeriesOf, zipWith3, trOf]
  rw [htr]
  have h1 : dmiSmoothSeq ([2, 2, 2, 2, 2, 2, 2, 2, 2, 2, 2, 2, 2, 2] : List ℚ) 14
      = [28] := by
    norm_num [dmiSmoothSeq, scanSteps]
  have h2 : wilderSmoothSeq ([2, 2, 2, 2, 2, 2, 2, 2, 2, 2, 2, 2, 2, 2] : List ℚ) 14
      = [2] := by
    norm_num [wilderSmoothSeq, scanSteps]
  rw [h1, h2]
  simp

/-- C3 (amended): inside `calculateDMI` the TR, +DM and −DM series are
smoothed with the sum-form recurrence (seed = sum of the first `period`
values, step `prev - prev/period + new`), which is exactly `period` times
the §4.1 `wilderSmooth` average recurrence; consequently every bar's
(+DI, −DI) pair equals smoothed DM / smoothed TR × 100 computed from the
§4.1 `wilderSmooth` sequences (with DI = 0 when the smoothed TR is not
positive), and `calculateATR` ends on the last value of the §4.1
`wilderSmooth` sequence of the true ranges. -/
theorem claim_C3 :
    (∀ (series : List ℚ) (p : ℕ), 0 < p →
      dmiSmoothSeq series p = (wilderSmoothSeq series p).map (fun x => (p : ℚ) * x)) ∧
    (∀ (highs lows closes : List ℚ) (p : ℕ), 0 < p →
      diPairs highs lows closes p =
        zipWith3 diOf
          ((wilderSmoothSeq (trSeriesOf highs lows closes) p).drop 1)
          ((wilderSmoothSeq (plusDMSeries highs lows) p).drop 1)
          ((wilderSmoothSeq (minusDMSeries highs lows) p).drop 1)) ∧
    (∀ (highs lows closes : List ℚ) (p : ℕ), p + 1 ≤ closes.length →
      calculateATR highs lows closes p =
        (wilderSmoothSeq (trSeriesOf highs lows closes) p).getLast?) := by
  refine ⟨fun series p hp => dmiSmoothSeq_eq_scaled series p hp, ?_, ?_⟩
  · intro highs lows closes p hp
    unfold diPairs
    rw [dmiSmoothSeq_eq_scaled (trSeriesOf highs lows closes) p hp,
      dmiSmoothSeq_eq_scaled (plusDMSeries highs lows) p hp,
      dmiSmoothSeq_eq_scaled (minusDMSeries highs lows) p hp]
    simp only [← List.map_drop]
    rw [zipWith3_map]
    exact zipWith3_congr _ _ (fun a b c => diOf_scaled p hp a b c) _ _ _
  · intro highs lows closes p hlen
    unfold calculateATR
    rw [if_neg (by omega)]
    unfold wilderSmoothSeq
    rw [List.getLast?_eq_getLast _ (by simp), scanSteps_getLast]

theorem claim_C3_witness :
    dmiSmoothSeq [1, 2] 1 = (wilderSmoothSeq [1, 2] 1).map (fun x => (1 : ℚ) * x) ∧
    diPairs [1, 2] [0, 1] [1, 1] 1 =
      zipWith3 diOf
        ((wilderSmoothSeq (trSeriesOf [1, 2] [0, 1] [1, 1]) 1).drop 1)
        ((wilderSmoothSeq (plusDMSeries [1, 2] [0, 1]) 1).drop 1)
        ((wilderSmoothSeq (minusDMSeries [1, 2] [0, 1]) 1).drop 1) ∧
    calculateATR [1, 2] [0, 1] [1, 1] 1 =
      (wilderSmoothSeq (trSeriesOf [1, 2] [0, 1] [1, 1]) 1).getLast? := by
  exact ⟨claim_C3.1 [1, 2] 1 (by norm_num),
    claim_C3.2.1 [1, 2] [0, 1] [1, 1] 1 (by norm_num),
    claim_C3.2.2 [1, 2] [0, 1] [1, 1] 1 (by norm_num)⟩

/-! ### MACD (calculateIndicators.js lines 64-92) -/

/-- The defined (non-`null`) tail of an EMA series: the SMA seed followed
by the recurrence values. -/
def emaDefined (prices : List ℚ) (period : ℕ) : List ℚ :=
  ((prices.take period).sum / period) ::
    emaScan (2 / (period + 1)) ((prices.take period).sum / period) (prices.drop period)

/-- The pointwise difference when both entries are defined
(calculateIndicators.js lines 73-75). -/
def subBoth : Option ℚ × Option ℚ → Option ℚ
  | (some a, some b) => some (a - b)
  | _ => none

/-- The MACD line (calculateIndicators.js lines 71-77): `EMA12 - EMA26`
at every index where both are non-`null`. -/
def macdLine (prices : List ℚ) : List ℚ :=
  ((calculateEMASeries prices 12).zip (calculateEMASeries prices 26)).filterMap subBoth

/-- `calculateMACD(prices)` (calculateIndicators.js lines 64-92): all
three fields `null` below 35 closes or when fewer than 9 MACD points
exist; otherwise the last MACD value, the last value of the 9-period
seeded EMA of the MACD line, and their difference.  The final fallback is
unreachable once the guards pass. -/
def calculateMACD (prices : List ℚ) : Option ℚ × Option ℚ × Option ℚ :=
  if prices.length < 35 then (none, none, none)
  else if (macdLine prices).length < 9 then (none, none, none)
  else
    match (macdLine prices).getLast?, (calculateEMASeries (macdLine prices) 9).getLast? with
    | some m, some (some s) => (some m, some s, some (m - s))
    | _, _ => (none, none, none)

theorem calculateEMASeries_eq' (prices : List ℚ) (period : ℕ)
    (hlen : period ≤ prices.length) :
    calculateEMASeries prices period =
      List.replicate (period - 1) none ++ (emaDefined prices period).map some := by
  rw [calculateEMASeries_eq prices period hlen]
  rfl

theorem emaDefined_length (prices : List ℚ) (period : ℕ) :
    (emaDefined prices period).length = prices.length - period + 1 := by
  simp [emaDefined, emaScan_length]

theorem filterMap_id_map_some (l : List ℚ) :
    (l.map (some : ℚ → Option ℚ)).filterMap id = l := by
  induction l with
  | nil => rfl
  | cons a t ih => simp [ih]

theorem filterMap_id_replicate_none (n : ℕ) :
    (List.replicate n (none : Option ℚ)).filterMap id = [] := by
  induction n with
  | zero => rfl
  | succ m ih => rw [List.replicate_succ, List.filterMap_cons]; exact ih

theorem ema_filterMap_id (prices : List ℚ) (period : ℕ)
    (hlen : period ≤ prices.length) :
    (calculateEMASeries prices period).filterMap id = emaDefined prices period := by
  rw [calculateEMASeries_eq' prices period hlen, List.filterMap_append,
    filterMap_id_replicate_none, filterMap_id_map_some, List.nil_append]

theorem filterMap_subBoth_none_right (l : List (Option ℚ)) : ∀ n : ℕ,
    (l.zip (List.replicate n (none : Option ℚ))).filterMap subBoth = [] := by
  induction l with
  | nil => intro n; rfl
  | cons x t ih =>
    intro n
    cases n with
    | zero => rfl
    | succ m =>
      rw [List.replicate_succ, List.zip_cons_cons, List.filterMap_cons]
      have hx : subBoth (x, none) = none := by cases x <;> rfl
      rw [hx]
      exact ih m

theorem filterMap_subBoth_map_some (X : List ℚ) : ∀ Y : List ℚ,
    ((X.map some).zip (Y.map some)).filterMap subBoth =
      List.zipWith (fun a b => a - b) X Y := by
  induction X with
  | nil => intro Y; rfl
  | cons x t ih =>
    intro Y
    cases Y with
    | nil => rfl
    | cons y Y' =>
      simp only [List.map_cons, List.zip_cons_cons, List.filterMap_cons,
        List.zipWith_cons_cons]
      rw [show subBoth (some x, some y) = some (x - y) from rfl, ih Y']

theorem macdLine_eq (prices : List ℚ) (h35 : 35 ≤ prices.length) :
    macdLine prices = List.zipWith (fun a b => a - b)
      ((emaDefined prices 12).drop 14) (emaDefined prices 26) := by
  unfold macdLine
  rw [calculateEMASeries_eq' prices 12 (by omega),
    calculateEMASeries_eq' prices 26 (by omega)]
  have hsplit : (List.replicate (12 - 1) (none : Option ℚ)) ++ (emaDefined prices 12).map some
      = ((List.replicate (12 - 1) (none : Option ℚ)) ++
          ((emaDefined prices 12).take 14).map some)
        ++ ((emaDefined prices 12).drop 14).map some := by
    rw [List.append_assoc, ← List.map_append, List.take_append_drop]
  rw [hsplit]
  have hlen12 : (emaDefined prices 12).length = prices.length - 11 := by
    rw [emaDefined_length]; omega
  have hfst : ((List.replicate (12 - 1) (none : Option ℚ)) ++
      ((emaDefined prices 12).take 14).map some).length
      = (List.replicate (26 - 1) (none : Option ℚ)).length := by
    simp only [List.length_append, List.length_replicate, List.length_map,
      List.length_take]
    omega
  rw [List.zip_append hfst, List.filterMap_append]
  rw [filterMap_subBoth_none_right, filterMap_subBoth_map_some, List.nil_append]

theorem macdLine_length (prices : List ℚ) (h35 : 35 ≤ prices.length) :
    (macdLine prices).length = prices.length - 25 := by
  rw [macdLine_eq prices h35]
  simp only [List.length_zipWith, List.length_drop, emaDefined_length]
  omega

/-- C8: `calculateMACD` returns all of macd/signal/histogram absent
exactly when fewer than 35 closes are supplied; for length ≥ 35 the MACD
line is EMA12 − EMA26 pointwise where both are defined (`len - 25`
points), and the function returns the last MACD value, the last value of
the 9-period seeded exponential series of the MACD line, and histogram =
macd − signal, all present. -/
theorem claim_C8 (prices : List ℚ) :
    (calculateMACD prices = (none, none, none) ↔ prices.length < 35) ∧
    (35 ≤ prices.length →
      (macdLine prices).length = prices.length - 25 ∧
      macdLine prices = List.zipWith (fun a b => a - b)
        (((calculateEMASeries prices 12).filterMap id).drop 14)
        ((calculateEMASeries prices 26).filterMap id) ∧
      (∃ m s, (macdLine prices).getLast? = some m ∧
        (calculateEMASeries (macdLine prices) 9).getLast? = some (some s) ∧
        calculateMACD prices = (some m, some s, some (m - s)))) := by
  have hmain : 35 ≤ prices.length →
      (∃ m s, (macdLine prices).getLast? = some m ∧
        (calculateEMASeries (macdLine prices) 9).getLast? = some (some s) ∧
        calculateMACD prices = (some m, some s, some (m - s))) := by
    intro h35
    have hMlen : (macdLine prices).length = prices.length - 25 :=
      macdLine_length prices h35
    have hMne : macdLine prices ≠ [] := by
      intro hnil
      rw [hnil] at hMlen
      simp at hMlen
      omega
    have hm : (macdLine prices).getLast? = some ((macdLine prices).getLast hMne) :=
      List.getLast?_eq_getLast _ hMne
    have h9 : 9 ≤ (macdLine prices).length := by omega
    have hs : (calculateEMASeries (macdLine prices) 9).getLast?
        = some (some ((emaDefined (macdLine prices) 9).getLast (by simp [emaDefined]))) := by
      rw [calculateEMASeries_eq' (macdLine prices) 9 h9]
      rw [List.getLast?_append_of_ne_nil _ (by simp [emaDefined])]
      rw [List.getLast?_map, List.getLast?_eq_getLast _ (by simp [emaDefined])]
      rfl
    refine ⟨_, _, hm, hs, ?_⟩
    unfold calculateMACD
    rw [if_neg (by omega), if_neg (by omega), hm, hs]
  constructor
  · constructor
    · intro heq
      by_contra hge
      obtain ⟨m, s, _, _, hres⟩ := hmain (by omega)
      rw [hres] at heq
      simp at heq
    · intro h
      unfold calculateMACD
      rw [if_pos h]
  · intro h35
    refine ⟨macdLine_length prices h35, ?_, hmain h35⟩
    rw [ema_filterMap_id prices 12 (by omega), ema_filterMap_id prices 26 (by omega)]
    exact macdLine_eq prices h35

theorem claim_C8_witness :
    (calculateMACD (List.replicate 34 (1 : ℚ)) = (none, none, none) ↔
      (List.replicate 34 (1 : ℚ)).length < 35) ∧
    ((macdLine (List.replicate 35 (1 : ℚ))).length =
      (List.replicate 35 (1 : ℚ)).length - 25 ∧
      macdLine (List.replicate 35 (1 : ℚ)) = List.zipWith (fun a b => a - b)
        (((calculateEMASeries (List.replicate 35 (1 : ℚ)) 12).filterMap id).drop 14)
        ((calculateEMASeries (List.replicate 35 (1 : ℚ)) 26).filterMap id) ∧
      (∃ m s, (macdLine (List.replicate 35 (1 : ℚ))).getLast? = some m ∧
        (calculateEMASeries (macdLine (List.replicate 35 (1 : ℚ))) 9).getLast?
          = some (some s) ∧
        calculateMACD (List.replicate 35 (1 : ℚ)) = (some m, some s, some (m - s)))) :=
  ⟨(claim_C8 (List.replicate 34 (1 : ℚ))).1,
   (claim_C8 (List.replicate 35 (1 : ℚ))).2 (by simp)⟩

/-! ### Signal detectors (strategies.js lines 6-134)

Each detector reads the newest rows of its SQL query (descending date
order, index 0 = today) and returns at most one event tag. -/

/-- `detectMACrossover(stockId)` (strategies.js lines 6-30): rows of
(ma5, ma20), newest first; `null` below 2 rows. -/
def detectMACrossover (rows : List (ℚ × ℚ)) : Option String :=
  match rows with
  | today :: yesterday :: _ =>
    if yesterday.1 ≤ yesterday.2 ∧ today.1 > today.2 then some "golden_cross"
    else if yesterday.1 ≥ yesterday.2 ∧ today.1 < today.2 then some "death_cross"
    else none
  | _ => none

/-- `detectRSIOversold(stockId)` (strategies.js lines 35-58): rows of
rsi, newest first; `null` below 2 rows. -/
def detectRSIOversold (rows : List ℚ) : Option String :=
  match rows with
  | rsiNow :: rsiPrev :: _ =>
    if rsiPrev < 30 ∧ rsiNow ≥ 30 then some "rsi_bounce"
    else if rsiNow < 30 then some "rsi_oversold"
    else if rsiNow > 70 then some "rsi_overbought"
    else none
  | _ => none

/-- `detectMACDCrossover(stockId)` (strategies.js lines 63-83): rows of
macd_histogram, newest first; `null` below 2 rows. -/
def detectMACDCrossover (rows : List ℚ) : Option String :=
  match rows with
  | histNow :: histPrev :: _ =>
    if histPrev ≤ 0 ∧ histNow > 0 then some "macd_golden_cross"
    else if histPrev ≥ 0 ∧ histNow < 0 then some "macd_death_cross"
    else none
  | _ => none

/-- `detectVolumeBreakout(stockId)` (strategies.js lines 88-106): rows of
volume, newest first, at most 21 from the query; `null` below 21 rows. -/
def detectVolumeBreakout (rows : List ℚ) : Option String :=
  if rows.length < 21 then none
  else
    match rows with
    | today :: rest =>
      if today > (rest.sum / 20) * 2 then some "volume_breakout" else none
    | [] => none

/-- `detectBollingerBreakout(stockId)` (strategies.js lines 111-134): rows
of (close, upper, lower), newest first; note the guard on line 121 is
`rows.length < 1`, so a single row suffices. -/
def detectBollingerBreakout (rows : List (ℚ × ℚ × ℚ)) : Option String :=
  match rows with
  | r :: _ =>
    if r.1 > r.2.1 then some "bollinger_breakout_up"
    else if r.1 < r.2.2 then some "bollinger_breakout_down"
    else none
  | [] => none

/-- C9 (counterexample to the claim as stated): the Bollinger breakout
detector produces an event from a single row of price/band history (close
200 above upper band 110). -/
theorem claim_C9_counterexample :
    detectBollingerBreakout [(200, 110, 90)] ≠ none := by
  show (if (200 : ℚ) > 110 then some "bollinger_breakout_up"
    else if (200 : ℚ) < 90 then some "bollinger_breakout_down" else none) ≠ none
  rw [if_pos (by norm_num)]
  simp

/-- C9 (amended): the MA-crossover, RSI, MACD and volume detectors return
no event when fewer than 2 rows are available (the volume detector in fact
requires 21); the Bollinger breakout detector needs only a single row: it
returns no event only on an empty history and can fire from one row. -/
theorem claim_C9 :
    (∀ rows : List (ℚ × ℚ), rows.length < 2 → detectMACrossover rows = none) ∧
    (∀ rows : List ℚ, rows.length < 2 → detectRSIOversold rows = none) ∧
    (∀ rows : List ℚ, rows.length < 2 → detectMACDCrossover rows = none) ∧
    (∀ rows : List ℚ, rows.length < 21 → detectVolumeBreakout rows = none) ∧
    detectBollingerBreakout [] = none ∧
    detectBollingerBreakout [(200, 110, 90)] = some "bollinger_breakout_up" := by
  refine ⟨?_, ?_, ?_, ?_, rfl, ?_⟩
  · intro rows h
    match rows with
    | [] => rfl
    | [_] => rfl
    | _ :: _ :: _ => simp at h; omega
  · intro rows h
    match rows with
    | [] => rfl
    | [_] => rfl
    | _ :: _ :: _ => simp at h; omega
  · intro rows h
    match rows with
    | [] => rfl
    | [_] => rfl
    | _ :: _ :: _ => simp at h; omega
  · intro rows h
    unfold detectVolumeBreakout
    rw [if_pos h]
  · show (if (200 : ℚ) > 110 then some "bollinger_breakout_up"
      else if (200 : ℚ) < 90 then some "bollinger_breakout_down" else none)
      = some "bollinger_breakout_up"
    rw [if_pos (by norm_num)]

theorem claim_C9_witness :
    detectMACrossover [(1, 2)] = none ∧
    detectRSIOversold [40] = none ∧
    detectMACDCrossover [1] = none ∧
    detectVolumeBreakout [100] = none := by
  exact ⟨claim_C9.1 [(1, 2)] (by norm_num), claim_C9.2.1 [40] (by norm_num),
    claim_C9.2.2.1 [1] (by norm_num), claim_C9.2.2.2.1 [100] (by norm_num)⟩

/-! ### Composite technical score (strategies.js lines 161-260)

`parseFloat` of a SQL `NULL` yields `NaN` and every `isNaN` guard then
skips the block; an absent value is modelled as `none`.  Each `score +=`
block of the source is transcribed as one adjustment function. -/

/-- The latest `technical_indicators` row as read by `scoreStock`. -/
structure TechRow where
  rsi : Option ℚ
  ma5 : Option ℚ
  ma20 : Option ℚ
  ma60 : Option ℚ
  macd_histogram : Option ℚ
  kd_k : Option ℚ
  kd_d : Option ℚ
  adx : Option ℚ
  plus_di : Option ℚ
  minus_di : Option ℚ
  bollinger_upper : Option ℚ
  bollinger_middle : Option ℚ
  bollinger_lower : Option ℚ

/-- RSI block (strategies.js lines 181-187). -/
def adjRSI (ti : TechRow) : ℚ :=
  match ti.rsi with
  | some rsi =>
    if 30 ≤ rsi ∧ rsi ≤ 50 then 10
    else if 50 < rsi ∧ rsi ≤ 70 then 5
    else if 70 < rsi then -5
    else if rsi < 30 then -5
    else 0
  | none => 0

/-- Moving-average block (strategies.js lines 190-197); the `ma60` check
is independent of the `ma5`/`ma20` pair. -/
def adjMA (ti : TechRow) (close : ℚ) : ℚ :=
  (match ti.ma5, ti.ma20 with
   | some ma5, some ma20 =>
     if close > ma5 ∧ ma5 > ma20 then 10
     else if close < ma5 ∧ ma5 < ma20 then -10
     else 0
   | _, _ => 0) +
  (match ti.ma60 with
   | some ma60 => if close > ma60 then 5 else 0
   | none => 0)

/-- MACD histogram block (strategies.js lines 200-204). -/
def adjMACD (ti : TechRow) : ℚ :=
  match ti.macd_histogram with
  | some h => if h > 0 then 8 else -8
  | none => 0

/-- KD block (strategies.js lines 207-214). -/
def adjKD (ti : TechRow) : ℚ :=
  match ti.kd_k, ti.kd_d with
  | some k, some d =>
    (if k > d ∧ k < 80 then 8 else if k < d ∧ k > 20 then -5 else 0) +
    (if k > 80 then -3 else 0) + (if k < 20 then 3 else 0)
  | _, _ => 0

/-- Volume block (strategies.js lines 217-225); a comparison against an
absent `ma5` (`NaN`) is false, so both branches are skipped. -/
def adjVolume (ti : TechRow) (close : ℚ) (dp : List (ℚ × ℚ)) : ℚ :=
  if 21 ≤ dp.length then
    match dp with
    | d :: rest =>
      let avgVol := (rest.map Prod.snd).sum / 20
      if avgVol > 0 then
        match ti.ma5 with
        | some ma5 =>
          if d.2 / avgVol > 3 / 2 ∧ close > ma5 then 5
          else if d.2 / avgVol > 2 ∧ close < ma5 then -5
          else 0
        | none => 0
      else 0
    | [] => 0
  else 0

/-- ADX block (strategies.js lines 228-234). -/
def adjADX (ti : TechRow) : ℚ :=
  match ti.adx, ti.plus_di, ti.minus_di with
  | some adx, some pdi, some mdi =>
    if adx > 25 ∧ pdi > mdi then 5
    else if adx > 25 ∧ mdi > pdi then -5
    else 0
  | _, _, _ => 0

/-- Bollinger-position block (strategies.js lines 237-246). -/
def adjBollinger (ti : TechRow) (close : ℚ) : ℚ :=
  match ti.bollinger_upper, ti.bollinger_lower with
  | some bu, some bl =>
    let bWidth := bu - bl
    let pos := if bWidth > 0 then (close - bl) / bWidth else 1 / 2
    if pos > 1 / 2 ∧ pos < 4 / 5 then 3
    else if pos ≥ 4 / 5 then -2
    else if pos ≤ 1 / 5 then 2
    else 0
  | _, _ => 0

/-- `scoreStock(stockId)` (strategies.js lines 161-260): `null` when the
price query is empty; otherwise baseline 50 plus the seven adjustment
blocks, clamped to [0,100] and rounded (`Math.round`, then
`Math.max(0, Math.min(100, …))` on line 250). -/
def scoreStock (ti : TechRow) (dp : List (ℚ × ℚ)) : Option ℤ :=
  match dp with
  | [] => none
  | d :: rest =>
    let close := d.1
    let s1 : ℚ := 50 + adjRSI ti
    let s2 := s1 + adjMA ti close
    let s3 := s2 + adjMACD ti
    let s4 := s3 + adjKD ti
    let s5 := s4 + adjVolume ti close (d :: rest)
    let s6 := s5 + adjADX ti
    let s7 := s6 + adjBollinger ti close
    some (max 0 (min 100 (round s7)))

/-- C5: for every combination of present/absent indicator fields and any
latest price/volume context, the technical composite score is
`clamp(round(50 + sum of the independent adjustments))`, an integer in
[0,100], and each absent indicator group contributes an adjustment of
exactly zero. -/
theorem claim_C5 (ti : TechRow) (c v : ℚ) (dp : List (ℚ × ℚ)) :
    scoreStock ti ((c, v) :: dp) =
      some (max 0 (min 100 (round (50 + adjRSI ti + adjMA ti c + adjMACD ti +
        adjKD ti + adjVolume ti c ((c, v) :: dp) + adjADX ti + adjBollinger ti c)))) ∧
    (∀ s : ℤ, scoreStock ti ((c, v) :: dp) = some s → 0 ≤ s ∧ s ≤ 100) ∧
    adjRSI { ti with rsi := none } = 0 ∧
    adjMA { ti with ma5 := none, ma20 := none, ma60 := none } c = 0 ∧
    adjMACD { ti with macd_histogram := none } = 0 ∧
    adjKD { ti with kd_k := none } = 0 ∧
    adjADX { ti with adx := none } = 0 ∧
    adjBollinger { ti with bollinger_upper := none } c = 0 := by
  refine ⟨rfl, ?_, rfl, by simp [adjMA], rfl, rfl, rfl, rfl⟩
  intro s hs
  have h1 : scoreStock ti ((c, v) :: dp) =
      some (max 0 (min 100 (round (50 + adjRSI ti + adjMA ti c + adjMACD ti +
        adjKD ti + adjVolume ti c ((c, v) :: dp) + adjADX ti + adjBollinger ti c)))) := rfl
  have hv : s = max 0 (min 100 (round (50 + adjRSI ti + adjMA ti c + adjMACD ti +
      adjKD ti + adjVolume ti c ((c, v) :: dp) + adjADX ti + adjBollinger ti c))) :=
    (Option.some.inj (h1.symm.trans hs)).symm
  subst hv
  constructor
  · exact le_max_left 0 _
  · exact max_le (by norm_num) (min_le_left 100 _)

theorem claim_C5_witness :
    scoreStock
      { rsi := none, ma5 := none, ma20 := none, ma60 := none,
        macd_histogram := none, kd_k := none, kd_d := none, adx := none,
        plus_di := none, minus_di := none, bollinger_upper := none,
        bollinger_middle := none, bollinger_lower := none } [(10, 5)] = some 50 ∧
    (0 : ℤ) ≤ 50 ∧ (50 : ℤ) ≤ 100 := by
  have h := claim_C5
    { rsi := none, ma5 := none, ma20 := none, ma60 := none,
      macd_histogram := none, kd_k := none, kd_d := none, adx := none,
      plus_di := none, minus_di := none, bollinger_upper := none,
      bollinger_middle := none, bollinger_lower := none } 10 5 []
  have h50 : scoreStock
      { rsi := none, ma5 := none, ma20 := none, ma60 := none,
        macd_histogram := none, kd_k := none, kd_d := none, adx := none,
        plus_di := none, minus_di := none, bollinger_upper := none,
        bollinger_middle := none, bollinger_lower := none } [(10, 5)] = some 50 := by
    rw [h.1]
    norm_num [adjRSI, adjMA, adjMACD, adjKD, adjVolume, adjADX, adjBollinger]
  exact ⟨h50, (h.2.1 50 h50).1, (h.2.1 50 h50).2⟩

/-! ### Strategy screener (strategies.js lines 265-352)

The five preset SQL queries are modelled over one universe row per
instrument carrying the latest snapshot (plus the previous-day values the
self-join queries read): each branch filters the universe with the query's
WHERE clause, sorts by its ORDER BY key, and truncates to the `LIMIT 50`.
A SQL comparison against `NULL` is false, hence the `Option` guards. -/

structure ScreenRow where
  stock_id : ℕ
  close_price : ℚ
  volume : ℚ
  ma5 : Option ℚ
  ma20 : Option ℚ
  prev_ma5 : Option ℚ
  prev_ma20 : Option ℚ
  rsi : Option ℚ
  macd_histogram : Option ℚ
  prev_macd_histogram : Option ℚ
  avg20_volume : Option ℚ
  bollinger_upper : Option ℚ
  bollinger_middle : Option ℚ
  bollinger_lower : Option ℚ

/-- SQL `a > b`, false when either side is NULL. -/
def optGT (a b : Option ℚ) : Bool :=
  match a, b with
  | some x, some y => x > y
  | _, _ => false

/-- SQL `a <= b`, false when either side is NULL. -/
def optLE (a b : Option ℚ) : Bool :=
  match a, b with
  | some x, some y => x ≤ y
  | _, _ => false

/-- SQL `a < b`, false when either side is NULL. -/
def optLT (a b : Option ℚ) : Bool :=
  match a, b with
  | some x, some y => x < y
  | _, _ => false

def insertBy {α : Type} (le : α → α → Bool) (x : α) : List α → List α
  | [] => [x]
  | y :: ys => if le x y then x :: y :: ys else y :: insertBy le x ys

def sortBy {α : Type} (le : α → α → Bool) : List α → List α
  | [] => []
  | x :: xs => insertBy le x (sortBy le xs)

/-- Result of `screenByStrategy`: the error object of the default branch
(strategies.js line 343) or the `{strategy, count, data}` object of line
347. -/
inductive ScreenResult where
  | failure (msg : String)
  | success (strategy : String) (count : ℕ) (data : List ScreenRow)

def ScreenResult.isFailure : ScreenResult → Bool
  | .failure _ => true
  | .success _ _ _ => false

def ScreenResult.dataLength : ScreenResult → ℕ
  | .failure _ => 0
  | .success _ _ data => data.length

/-- `screenByStrategy(strategy, options)` (strategies.js lines 265-352):
five preset queries, each `LIMIT 50`; any other name returns the error
object of line 343.  The `rsi_oversold` threshold follows JS
`options.rsi_threshold || 30` (0 is falsy). -/
def screenByStrategy (strategy : String) (univ : List ScreenRow)
    (rsiThreshold : Option ℚ) : ScreenResult :=
  if strategy = "golden_cross" then
    let data := (sortBy (fun a b => b.close_price ≤ a.close_price)
      (univ.filter fun r => optGT r.ma5 r.ma20 && optLE r.prev_ma5 r.prev_ma20)).take 50
    .success strategy data.length data
  else if strategy = "rsi_oversold" then
    let threshold : ℚ := match rsiThreshold with
      | some t => if t = 0 then 30 else t
      | none => 30
    let data := (sortBy (fun a b => optLE a.rsi b.rsi)
      (univ.filter fun r => optLT r.rsi (some threshold))).take 50
    .success strategy data.length data
  else if strategy = "macd_golden_cross" then
    let data := (sortBy (fun a b => optLE b.macd_histogram a.macd_histogram)
      (univ.filter fun r =>
        optGT r.macd_histogram (some 0) && optLE r.prev_macd_histogram (some 0))).take 50
    .success strategy data.length data
  else if strategy = "volume_breakout" then
    let data := (sortBy (fun a b => b.volume ≤ a.volume)
      (univ.filter fun r =>
        optGT (some r.volume) (r.avg20_volume.map fun x => x * 2))).take 50
    .success strategy data.length data
  else if strategy = "bollinger_squeeze" then
    let bandwidth : ScreenRow → ℚ := fun r =>
      (r.bollinger_upper.getD 0 - r.bollinger_lower.getD 0) /
        r.bollinger_middle.getD 0 * 100
    let data := (sortBy (fun a b => bandwidth a ≤ bandwidth b)
      (univ.filter fun r => r.bollinger_upper.isSome)).take 50
    .success strategy data.length data
  else
    .failure "不支援的策略，可用: golden_cross, rsi_oversold, macd_golden_cross, volume_breakout, bollinger_squeeze"

/-- C7: for every strategy name other than the five presets the screener
returns a request-level error object, never a silent empty result list;
for every supported preset the returned match list is capped at 50
entries. -/
theorem claim_C7 (strategy : String) (univ : List ScreenRow)
    (rsiThreshold : Option ℚ) :
    (strategy ∉ (["golden_cross", "rsi_oversold", "macd_golden_cross",
        "volume_breakout", "bollinger_squeeze"] : List String) →
      (screenByStrategy strategy univ rsiThreshold).isFailure = true) ∧
    (strategy ∈ (["golden_cross", "rsi_oversold", "macd_golden_cross",
        "volume_breakout", "bollinger_squeeze"] : List String) →
      (screenByStrategy strategy univ rsiThreshold).isFailure = false ∧
      (screenByStrategy strategy univ rsiThreshold).dataLength ≤ 50) := by
  constructor
  · intro hmem
    have h1 : strategy ≠ "golden_cross" := by intro h; exact hmem (by simp [h])
    have h2 : strategy ≠ "rsi_oversold" := by intro h; exact hmem (by simp [h])
    have h3 : strategy ≠ "macd_golden_cross" := by intro h; exact hmem (by simp [h])
    have h4 : strategy ≠ "volume_breakout" := by intro h; exact hmem (by simp [h])
    have h5 : strategy ≠ "bollinger_squeeze" := by intro h; exact hmem (by simp [h])
    unfold screenByStrategy
    rw [if_neg h1, if_neg h2, if_neg h3, if_neg h4, if_neg h5]
    rfl
  · intro hmem
    have hlen : ∀ l : List ScreenRow, (l.take 50).length ≤ 50 := by
      intro l
      rw [List.length_take]
      omega
    simp only [List.mem_cons, List.not_mem_nil, or_false] at hmem
    rcases hmem with h | h | h | h | h
    · subst h
      exact ⟨rfl, hlen _⟩
    · subst h
      exact ⟨rfl, hlen _⟩
    · subst h
      exact ⟨rfl, hlen _⟩
    · subst h
      exact ⟨rfl, hlen _⟩
    · subst h
      exact ⟨rfl, hlen _⟩

theorem claim_C7_witness :
    (screenByStrategy "not_a_strategy" [] none).isFailure = true ∧
    (screenByStrategy "golden_cross" [] none).isFailure = false ∧
    (screenByStrategy "golden_cross" [] none).dataLength ≤ 50 := by
  refine ⟨(claim_C7 "not_a_strategy" [] none).1 (by decide), ?_, ?_⟩
  · exact ((claim_C7 "golden_cross" [] none).2 (by decide)).1
  · exact ((claim_C7 "golden_cross" [] none).2 (by decide)).2

/-! ### Indicator-record assembly (calculateIndicators.js lines 293-345)

The DB read and write are plumbing; the pure core maps the (high, low,
close, volume) rows to one `IndicatorRecord`.  The only guard is the
20-row floor on line 306: no value validation of any kind is performed —
`parseFloat`/`parseInt` results flow straight into the indicator
functions. -/

/-- `calculateMA(prices, period)` (calculateIndicators.js lines 6-10):
mean of the last `period` prices (`slice(-period)`). -/
def calculateMA (prices : List ℚ) (period : ℕ) : Option ℚ :=
  if prices.length < period then none
  else some ((prices.drop (prices.length - period)).sum / period)

/-- `calculateBollinger(prices, period, stdDev)` (calculateIndicators.js
lines 130-143), kept in exact arithmetic as (middle, population variance):
the source's bands are `middle ± stdDev * √variance`, whose floating-point
square root has no exact rational counterpart. -/
def calculateBollinger (prices : List ℚ) (period : ℕ) : Option (ℚ × ℚ) :=
  if prices.length < period then none
  else
    let recent := prices.drop (prices.length - period)
    let middle := recent.sum / period
    some (middle, (recent.map fun p => (p - middle) ^ 2).sum / period)

/-- `calculateVWAP(highs, lows, closes, volumes, period)`
(calculateIndicators.js lines 149-162): volume-weighted mean of the
typical price `(H+L+C)/3` over the trailing `period` rows; `null` when
the window's total volume is 0. -/
def calculateVWAP (highs lows closes volumes : List ℚ) (period : ℕ) : Option ℚ :=
  if closes.length < period then none
  else
    let idx0 := closes.length - period
    let tp := zipWith3 (fun h l c => (h + l + c) / 3)
      (highs.drop idx0) (lows.drop idx0) (closes.drop idx0)
    let sumPV := (List.zipWith (fun t v => t * v) tp (volumes.drop idx0)).sum
    let sumV := ((volumes.drop idx0).take period).sum
    if sumV = 0 then none else some (sumPV / sumV)

/-- `calculateWilliamsR(highs, lows, closes, period)`
(calculateIndicators.js lines 258-271): `-50` on a zero-range window. -/
def calculateWilliamsR (highs lows closes : List ℚ) (period : ℕ) : Option ℚ :=
  if closes.length < period then none
  else
    let recentHighs := highs.drop (highs.length - period)
    let recentLows := lows.drop (lows.length - period)
    let currentClose := closes.getLast?.getD 0
    let highest := listMax recentHighs
    let lowest := listMin recentLows
    if highest = lowest then some (-50)
    else some (((highest - currentClose) / (highest - lowest)) * (-100))

/-- The `indicators` object built on calculateIndicators.js lines 322-345
(Bollinger bands kept as (middle, variance), see `calculateBollinger`). -/
structure IndicatorRecord where
  ma5 : Option ℚ
  ma10 : Option ℚ
  ma20 : Option ℚ
  ma60 : Option ℚ
  rsi : Option ℚ
  macd : Option ℚ
  macd_signal : Option ℚ
  macd_histogram : Option ℚ
  kd_k : Option ℚ
  kd_d : Option ℚ
  bollinger_middle : Option ℚ
  bollinger_variance : Option ℚ
  vwap : Option ℚ
  atr : Option ℚ
  adx : Option ℚ
  plus_di : Option ℚ
  minus_di : Option ℚ
  williams_r : Option ℚ
  obv : Option ℚ

/-- The pure core of `calculateIndicatorsForStock(stockId)`
(calculateIndicators.js lines 293-345): below 20 rows nothing is
computed; otherwise every indicator is computed from the parsed values
exactly as supplied — there is no validation of negative or non-numeric
prices anywhere on this path. -/
def calculateIndicatorsForStock (rows : List (ℚ × ℚ × ℚ × ℚ)) :
    Option IndicatorRecord :=
  if rows.length < 20 then none
  else
    let highs := rows.map fun r => r.1
    let lows := rows.map fun r => r.2.1
    let closes := rows.map fun r => r.2.2.1
    let volumes := rows.map fun r => r.2.2.2
    let macd := calculateMACD closes
    let kd := calculateKD highs lows closes 9
    let boll := calculateBollinger closes 20
    let dmi := calculateDMI highs lows closes 14
    some {
      ma5 := calculateMA closes 5
      ma10 := calculateMA closes 10
      ma20 := calculateMA closes 20
      ma60 := calculateMA closes 60
      rsi := calculateRSI closes 14
      macd := macd.1
      macd_signal := macd.2.1
      macd_histogram := macd.2.2
      kd_k := kd.map Prod.fst
      kd_d := kd.map Prod.snd
      bollinger_middle := boll.map Prod.fst
      bollinger_variance := boll.map Prod.snd
      vwap := calculateVWAP highs lows closes volumes 20
      atr := calculateATR highs lows closes 14
      adx := dmi.map fun x => x.1
      plus_di := dmi.map fun x => x.2.1
      minus_di := dmi.map fun x => x.2.2
      williams_r := calculateWilliamsR highs lows closes 14
      obv := calculateOBV closes volumes }

/-- A 20-row history whose last row carries a negative (malformed) price:
19 rows of (high 1, low 1, close 1, volume 1000) and a final row of
(high −100, low −100, close −100, volume 1000). -/
def malformedRows : List (ℚ × ℚ × ℚ × ℚ) :=
  [(1, 1, 1, 1000), (1, 1, 1, 1000), (1, 1, 1, 1000), (1, 1, 1, 1000),
   (1, 1, 1, 1000), (1, 1, 1, 1000), (1, 1, 1, 1000), (1, 1, 1, 1000),
   (1, 1, 1, 1000), (1, 1, 1, 1000), (1, 1, 1, 1000), (1, 1, 1, 1000),
   (1, 1, 1, 1000), (1, 1, 1, 1000), (1, 1, 1, 1000), (1, 1, 1, 1000),
   (1, 1, 1, 1000), (1, 1, 1, 1000), (1, 1, 1, 1000),
   (-100, -100, -100, 1000)]

/-- C6: the engine does NOT fail loudly on malformed input.  On a 20-row
history containing a negative price it still produces an indicator
record, and the poisoned value flows into the smoothed/averaged
indicators: MA5 becomes (1+1+1+1-100)/5 = −96/5. -/
theorem claim_C6 :
    (calculateIndicatorsForStock malformedRows).isSome = true ∧
    ((calculateIndicatorsForStock malformedRows).map fun r => r.ma5)
      = some (some (-(96 / 5))) := by
  have hlen : malformedRows.length = 20 := rfl
  constructor
  · unfold calculateIndicatorsForStock
    rw [if_neg (by rw [hlen]; omega)]
    rfl
  · unfold calculateIndicatorsForStock
    rw [if_neg (by rw [hlen]; omega)]
    show some (calculateMA (malformedRows.map fun r => r.2.2.1) 5) = _
    norm_num [malformedRows, calculateMA]

end StockAnalysis
